import Mathlib

/-!
Shallow embedding of the PCI Option ROM decoder in src/fu-rom.c.

Byte buffers are modelled as `List Nat` (each entry a byte value); reads
use `List.getD` with default 0 and region reads use `listExtract`, which
truncates at the end of the list.  Where the C code would read or write
past the end of an allocation (undefined behaviour), the model truncates;
dedicated `..._in_bounds` predicates record exactly when the C loops stay
inside their allocations.  The C `while` loop of `fu_rom_load_file` is
modelled with an explicit fuel argument (`buffer.length + 1` suffices and
is proved sufficient below), keeping every definition kernel-executable.
-/

/-- Bytes `[off, off+len)` of a list, truncated at the end of the list.
Models a `memcmp`/`g_memdup` window at a pointer offset. -/
def listExtract (l : List Nat) (off len : Nat) : List Nat :=
  (l.drop off).take len

/-- One chained ROM header, `FuRomPciHeader` from fu-rom.c lines 39-59.
`rom_data` is the header's owned copy of its bytes. -/
structure FuRomPciHeader where
  rom_data : List Nat
  rom_len : Nat
  rom_offset : Nat
  entry_point : Nat
  reserved : List Nat
  cpi_ptr : Nat
  vendor_id : Nat
  device_id : Nat
  device_list_ptr : Nat
  data_len : Nat
  data_rev : Nat
  class_code : Nat
  image_len : Nat
  revision_level : Nat
  code_type : Nat
  last_image : Nat
  max_runtime_len : Nat
  config_header_ptr : Nat
  dmtf_clp_ptr : Nat
deriving DecidableEq, Inhabited

/-- The closed vendor-kind set, `FuRomKind`. -/
inductive FuRomKind where
  | unknown
  | pci
  | nvidia
  | intel
  | ati
deriving DecidableEq

/-- The top-level failures `fu_rom_load_file` can report. -/
inductive FuRomError where
  | tooSmall
  | notResponding
  | corruptOverflow
  | noHeaderFound
  | unknownKind
  | versionNotFound
deriving DecidableEq

/-- The decode result; `fingerprint_stream` is the exact byte sequence fed
to the incremental digest (lines 818-821), standing in for the digest
itself. -/
structure FuRomImage where
  kind : FuRomKind
  vendor : Nat
  model : Nat
  version : Option (List Nat)
  hdrs : List FuRomPciHeader
  fingerprint_stream : List Nat
deriving DecidableEq

/- Byte constants for the literal strings the C code compares against. -/

/-- "PPID" -/
def ppidNeedle : List Nat := [80, 80, 73, 68]
/-- "PCIR" -/
def pcirSig : List Nat := [80, 67, 73, 82]
/-- "RGIS" -/
def rgisSig : List Nat := [82, 71, 73, 83]
/-- "NPDS" -/
def npdsSig : List Nat := [78, 80, 68, 83]
/-- "NPDE" -/
def npdeSig : List Nat := [78, 80, 68, 69]
/-- "NVGI" -/
def nvgiSig : List Nat := [78, 86, 71, 73]
/-- "K74" -/
def k74Sig : List Nat := [75, 55, 52]
/-- "$VBT" -/
def vbtSig : List Nat := [36, 86, 66, 84]
/-- " 761295520" -/
def atiSig : List Nat := [32, 55, 54, 49, 50, 57, 53, 53, 50, 48]
/-- "\0\0ARC" -/
def arcSig : List Nat := [0, 0, 65, 82, 67]
/-- "BIOS: " -/
def biosNeedle : List Nat := [66, 73, 79, 83, 58, 32]
/-- "Version " -/
def versionSpaceNeedle : List Nat := [86, 101, 114, 115, 105, 111, 110, 32]
/-- "Vension:" -/
def vensionNeedle : List Nat := [86, 101, 110, 115, 105, 111, 110, 58]
/-- "Version" -/
def versionNeedle : List Nat := [86, 101, 114, 115, 105, 111, 110]
/-- "VBIOS Ver" -/
def vbiosVerNeedle : List Nat := [86, 66, 73, 79, 83, 32, 86, 101, 114]
/-- "VBIOS " -/
def vbiosSpaceNeedle : List Nat := [86, 66, 73, 79, 83, 32]
/-- "Build Number:" -/
def buildNumberNeedle : List Nat := [66, 117, 105, 108, 100, 32, 78, 117, 109, 98, 101, 114, 58]
/-- " VER0" -/
def verZeroNeedle : List Nat := [32, 86, 69, 82, 48]
/-- " VR" -/
def vrNeedle : List Nat := [32, 86, 82]
/-- "00000000000" (eleven ASCII zeros) -/
def elevenZeroChars : List Nat := List.replicate 11 48

/-- The scan loop of `fu_rom_pci_strstr` (lines 131-134): try offsets
`i, i+1, ...` for `fuel` steps, returning the first `i` whose window of
`needle.length` bytes at `rom_data[data_len + i]` equals the needle. -/
def strstrScan (rom_data : List Nat) (data_len : Nat) (needle : List Nat) :
    Nat → Nat → Option Nat
  | 0, _ => none
  | fuel + 1, i =>
    if listExtract rom_data (data_len + i) needle.length = needle then some i
    else strstrScan rom_data data_len needle fuel (i + 1)

/-- `fu_rom_pci_strstr` (lines 112-136): bounded substring search over the
trailing region `rom_data[data_len .. rom_len)`.  Returns the offset of the
match relative to `data_len` (the C code returns `&haystack[i]`).  Note the
C loop bound is `i < haystack_len - needle_len` (strict). -/
def fu_rom_pci_strstr (hdr : FuRomPciHeader) (needle : List Nat) : Option Nat :=
  if needle = [] then none
  else if hdr.rom_len < hdr.data_len then none
  else if hdr.rom_len - hdr.data_len < needle.length then none
  else strstrScan hdr.rom_data hdr.data_len needle
    ((hdr.rom_len - hdr.data_len) - needle.length) 0

/-- A needle match at offset `i` of the trailing region (what a successful
`memcmp` at `&haystack[i]` means). -/
def matchAt (hdr : FuRomPciHeader) (needle : List Nat) (i : Nat) : Prop :=
  listExtract hdr.rom_data (hdr.data_len + i) needle.length = needle

instance (hdr : FuRomPciHeader) (needle : List Nat) (i : Nat) :
    Decidable (matchAt hdr needle i) := by
  unfold matchAt
  infer_instance

/-- The stop bytes of `fu_rom_blank_serial_numbers` (lines 146-149). -/
def boundaryByte (b : Nat) : Bool :=
  b == 0xff || b == 0 || b == 10 || b == 13

/-- `fu_rom_blank_serial_numbers` (lines 141-154): overwrite bytes with 0
until a boundary byte (exclusive) or the size bound `fuel` is reached.
The C loop keeps walking raw memory when the allocation ends first; the
model stops at the end of the list (see `redact_in_bounds`). -/
def blankBytes : Nat → List Nat → List Nat
  | 0, l => l
  | _ + 1, [] => []
  | fuel + 1, b :: rest =>
    if boundaryByte b then b :: rest else 0 :: blankBytes fuel rest

/-- `fu_rom_pci_header_get_checksum` (lines 259-267): unsigned byte sum of
`rom_data[0 .. rom_len)` in a `guint8` accumulator. -/
def fu_rom_pci_header_get_checksum (hdr : FuRomPciHeader) : Nat :=
  (hdr.rom_data.take hdr.rom_len).sum % 256

/-- Lines 391-392: recompute the checksum and subtract it (wrapping 8-bit)
from the last byte of the segment. -/
def fixChecksum (hdr : FuRomPciHeader) : FuRomPciHeader :=
  let adjusted := (hdr.rom_data.getD (hdr.rom_len - 1) 0 + 256
    - fu_rom_pci_header_get_checksum hdr) % 256
  { hdr with rom_data := hdr.rom_data.set (hdr.rom_len - 1) adjusted }

/-- The mutated `rom_data` after line 387: bytes before the match are kept,
and from the match on, `fu_rom_blank_serial_numbers` runs with size bound
`rom_len - data_len` (the bound the C code passes, counted from the match
position). -/
def blank_region (hdr : FuRomPciHeader) (moff : Nat) : List Nat :=
  hdr.rom_data.take (hdr.data_len + moff) ++
    blankBytes (hdr.rom_len - hdr.data_len)
      (hdr.rom_data.drop (hdr.data_len + moff))

/-- The per-header body of `fu_rom_find_and_blank_serial_numbers`
(lines 380-395): find "PPID", blank from it, fix the checksum byte. -/
def redact_header (hdr : FuRomPciHeader) : FuRomPciHeader :=
  match fu_rom_pci_strstr hdr ppidNeedle with
  | none => hdr
  | some moff => fixChecksum { hdr with rom_data := blank_region hdr moff }

/-- True when the C blanking loop for this header stays inside the
`rom_len`-byte `rom_data` allocation: either no match, or the match is at
offset 0 (so the size bound `rom_len - data_len` equals the bytes
available), or a boundary byte stops the loop before the allocation ends.
With a match at `moff ≥ 1` and no boundary byte in
`rom_data[data_len+moff .. rom_len)`, the C loop reads and writes
`rom_data[rom_len]` and beyond. -/
def redact_in_bounds (hdr : FuRomPciHeader) : Bool :=
  match fu_rom_pci_strstr hdr ppidNeedle with
  | none => true
  | some moff =>
    moff == 0 ||
      (hdr.rom_data.drop (hdr.data_len + moff)).any (fun b => boundaryByte b)

/-- `fu_rom_find_and_blank_serial_numbers` (lines 365-396): skipped for
PCI and Intel kinds, otherwise applied to every header. -/
def fu_rom_find_and_blank_serial_numbers (kind : FuRomKind)
    (hdrs : List FuRomPciHeader) : List FuRomPciHeader :=
  if kind = FuRomKind.pci ∨ kind = FuRomKind.intel then hdrs
  else hdrs.map redact_header

/-- `fu_rom_pci_parse_data` (lines 401-459): decode the PCI Data Structure
at `cpi_ptr`.  Returns the (possibly updated) header and the C boolean. -/
def fu_rom_pci_parse_data (hdr : FuRomPciHeader) : FuRomPciHeader × Bool :=
  if hdr.cpi_ptr = 0 then (hdr, false)
  else if 0 < hdr.rom_len ∧ hdr.rom_len < hdr.cpi_ptr then (hdr, false)
  else if hdr.rom_len < hdr.cpi_ptr then (hdr, false)
  else
    let buffer := hdr.rom_data.drop hdr.cpi_ptr
    if ¬ (listExtract buffer 0 4 = pcirSig ∨ listExtract buffer 0 4 = rgisSig ∨
          listExtract buffer 0 4 = npdsSig ∨ listExtract buffer 0 4 = npdeSig) then
      (hdr, false)
    else
      ({ hdr with
          vendor_id := buffer.getD 0x05 0 * 256 + buffer.getD 0x04 0
          device_id := buffer.getD 0x07 0 * 256 + buffer.getD 0x06 0
          device_list_ptr := buffer.getD 0x09 0 * 256 + buffer.getD 0x08 0
          data_len := buffer.getD 0x0b 0 * 256 + buffer.getD 0x0a 0
          data_rev := buffer.getD 0x0c 0
          class_code := buffer.getD 0x0f 0 * 65536 + buffer.getD 0x0e 0 * 256 +
            buffer.getD 0x0d 0
          image_len := (buffer.getD 0x11 0 * 256 + buffer.getD 0x10 0) * 512
          revision_level := buffer.getD 0x13 0 * 256 + buffer.getD 0x12 0
          code_type := buffer.getD 0x14 0
          last_image := buffer.getD 0x15 0
          max_runtime_len := (buffer.getD 0x17 0 * 256 + buffer.getD 0x16 0) * 512
          config_header_ptr := buffer.getD 0x19 0 * 256 + buffer.getD 0x18 0
          dmtf_clp_ptr := buffer.getD 0x1b 0 * 256 + buffer.getD 0x1a 0 }, true)

/-- `fu_rom_pci_get_header` (lines 464-505): decode one header from the
start of `buf` (= `&buffer[offset]` in C) with `sz` bytes remaining.
Signature must be 55 AA or the Nvidia quirk 56 4E; a declared length of 0
is fixed up to the remaining size; the segment bytes are copied into the
header; the PCI Data Structure parse result never invalidates the header. -/
def fu_rom_pci_get_header (buf : List Nat) (sz : Nat) : Option FuRomPciHeader :=
  if ¬ (listExtract buf 0 2 = [0x55, 0xaa] ∨ listExtract buf 0 2 = [0x56, 0x4e]) then
    none
  else
    let rom_len0 := buf.getD 0x02 0 * 512
    let rom_len := if rom_len0 = 0 then sz else rom_len0
    some (fu_rom_pci_parse_data
      { rom_data := listExtract buf 0 rom_len
        rom_len := rom_len
        rom_offset := 0
        entry_point := buf.getD 0x05 0 * 65536 + buf.getD 0x04 0 * 256 +
          buf.getD 0x03 0
        reserved := listExtract buf 6 18
        cpi_ptr := buf.getD 0x19 0 * 256 + buf.getD 0x18 0
        vendor_id := 0
        device_id := 0
        device_list_ptr := 0
        data_len := 0
        data_rev := 0
        class_code := 0
        image_len := 0
        revision_level := 0
        code_type := 0
        last_image := 0
        max_runtime_len := 0
        config_header_ptr := 0
        dmtf_clp_ptr := 0 }).1

/-- The fallback header synthesized for trailing junk (lines 726-735):
`g_new0` zeroes every field, then the listed fields are set. -/
def fakeHeader (buffer : List Nat) (off : Nat) : FuRomPciHeader :=
  { rom_data := listExtract buffer off (buffer.length - off)
    rom_len := buffer.length - off
    rom_offset := off
    entry_point := 0
    reserved := List.replicate 18 0
    cpi_ptr := 0
    vendor_id := 0
    device_id := 0
    device_list_ptr := 0
    data_len := 0
    data_rev := 0
    class_code := 0
    image_len := buffer.length - off
    revision_level := 0
    code_type := 0
    last_image := 0x80
    max_runtime_len := 0
    config_header_ptr := 0
    dmtf_clp_ptr := 0 }

/-- The padding-versus-junk scan on decode failure (lines 717-723): look at
the `hdr_sz + jump` bytes starting at the failed offset `hdr_sz + jump`
for a non-zero byte.  The C loop reads `buffer[hdr_sz + jump + i]`, which
runs past the `sz` valid bytes whenever `2 * (hdr_sz + jump) > sz`; the
model reads 0 there (see `junk_scan_in_bounds`). -/
def junkFound (buffer : List Nat) (off : Nat) : Bool :=
  (listExtract buffer off off).any (fun b => b != 0)

/-- True when the C junk scan at failed offset `off` only reads valid
bytes: either the window `[off, 2*off)` fits inside the buffer, or a
non-zero valid byte stops the scan before it reaches the end. -/
def junk_scan_in_bounds (buffer : List Nat) (off : Nat) : Bool :=
  off + off ≤ buffer.length ||
    (listExtract buffer off (buffer.length - off)).any (fun b => b != 0)

/-- The header chain walk of `fu_rom_load_file` (lines 710-756), with an
explicit fuel bound on the number of loop iterations.  Each iteration
attempts a decode at `hdr_sz + jump`; success appends the header (with its
offset recorded) and advances by `rom_len`, falling back to `image_len`
and stopping on 0; failure runs the junk scan and appends at most one
fallback header. -/
def walkAuxFuel (buffer : List Nat) (hdr_sz : Nat) :
    Nat → Nat → List FuRomPciHeader
  | 0, _ => []
  | fuel + 1, jump =>
    if buffer.length ≤ hdr_sz + jump then []
    else
      match fu_rom_pci_get_header (buffer.drop (hdr_sz + jump))
          (buffer.length - (hdr_sz + jump)) with
      | none =>
        if junkFound buffer (hdr_sz + jump) then [fakeHeader buffer (hdr_sz + jump)]
        else []
      | some hdr0 =>
        let hdr := { hdr0 with rom_offset := hdr_sz + jump }
        let jump_sz := if hdr.rom_len = 0 then hdr.image_len else hdr.rom_len
        if jump_sz = 0 then [hdr]
        else hdr :: walkAuxFuel buffer hdr_sz fuel (jump + jump_sz)

/-- The attempted-decode offsets of the same loop, in order. -/
def walkOffsetsFuel (buffer : List Nat) (hdr_sz : Nat) :
    Nat → Nat → List Nat
  | 0, _ => []
  | fuel + 1, jump =>
    if buffer.length ≤ hdr_sz + jump then []
    else
      (hdr_sz + jump) ::
        match fu_rom_pci_get_header (buffer.drop (hdr_sz + jump))
            (buffer.length - (hdr_sz + jump)) with
        | none => []
        | some hdr0 =>
          let jump_sz := if hdr0.rom_len = 0 then hdr0.image_len else hdr0.rom_len
          if jump_sz = 0 then []
          else walkOffsetsFuel buffer hdr_sz fuel (jump + jump_sz)

/-- The chain walk with enough fuel for any input (proved sufficient in
`c8_walk_monotone_bounded`). -/
def fu_rom_walk (buffer : List Nat) (hdr_sz : Nat) : List FuRomPciHeader :=
  walkAuxFuel buffer hdr_sz (buffer.length + 1) 0

/-- The attempted offsets of `fu_rom_walk`. -/
def fu_rom_walk_offsets (buffer : List Nat) (hdr_sz : Nat) : List Nat :=
  walkOffsetsFuel buffer hdr_sz (buffer.length + 1) 0

/-- Lines 705-707: the IFR pre-skip.  `GUINT16_FROM_BE (buffer[0x15])` is
applied to the single byte `buffer[0x15]` (promoted to 16 bits), so on a
little-endian host the result is that byte shifted into the high half;
byte 0x16 is never read. -/
def initial_hdr_sz (buffer : List Nat) : Nat :=
  if listExtract buffer 0 4 = nvgiSig then buffer.getD 0x15 0 * 256 else 0

/-- Lines 781-782: the header-size offset used by classification; if the
first header's reserved area is eleven ASCII zeros it is recomputed as the
little-endian 16-bit value at buffer offset 0x1A. -/
def classify_hdr_sz (buffer : List Nat) (hdr0 : FuRomPciHeader) : Nat :=
  if listExtract hdr0.reserved 0 11 = elevenZeroChars then
    buffer.getD 0x1b 0 * 256 + buffer.getD 0x1a 0
  else initial_hdr_sz buffer

/-- Lines 778-797: vendor classification.  The kind starts as PCI and is
overridden by the K74 / $VBT / ATI signature probes. -/
def fu_rom_classify (buffer : List Nat) (hdr_sz : Nat) : FuRomKind :=
  if listExtract buffer (hdr_sz + 0x04) 3 = k74Sig then FuRomKind.nvidia
  else if listExtract buffer hdr_sz 4 = vbtSig then FuRomKind.intel
  else if listExtract buffer 0x30 10 = atiSig then FuRomKind.ati
  else FuRomKind.pci

/-- Read a NUL-terminated C string starting at `off` (what `g_strdup` of a
pointer into `rom_data` yields). -/
def cstringAt (l : List Nat) (off : Nat) : List Nat :=
  (l.drop off).takeWhile (fun b => b != 0)

/-- `fu_rom_find_version_pci` (lines 510-522). -/
def fu_rom_find_version_pci (hdr : FuRomPciHeader) : Option (List Nat) :=
  if listExtract hdr.reserved 0 5 = arcSig then
    match fu_rom_pci_strstr hdr biosNeedle with
    | some off => some (cstringAt hdr.rom_data (hdr.data_len + off + 6))
    | none => none
  else none

/-- `fu_rom_find_version_nvidia` (lines 527-553).  The fixed-offset probes
at 0x13D and 0xFA read `rom_data` directly, regardless of `rom_len`. -/
def fu_rom_find_version_nvidia (hdr : FuRomPciHeader) : Option (List Nat) :=
  if listExtract hdr.rom_data 0x13d 8 = versionSpaceNeedle then
    some (cstringAt hdr.rom_data (0x13d + 8))
  else
    match fu_rom_pci_strstr hdr versionSpaceNeedle with
    | some off => some (cstringAt hdr.rom_data (hdr.data_len + off + 8))
    | none =>
      match fu_rom_pci_strstr hdr vensionNeedle with
      | some off => some (cstringAt hdr.rom_data (hdr.data_len + off + 8))
      | none =>
        match fu_rom_pci_strstr hdr versionNeedle with
        | some off => some (cstringAt hdr.rom_data (hdr.data_len + off + 7))
        | none =>
          if listExtract hdr.rom_data 0xfa 9 = vbiosVerNeedle then
            some (cstringAt hdr.rom_data (0xfa + 9))
          else none

/-- Token contains a '.' (`g_strstr_len (split[i], -1, ".")`). -/
def containsDot (t : List Nat) : Bool := t.contains 46

/-- `fu_rom_find_version_intel` (lines 558-581). -/
def fu_rom_find_version_intel (hdr : FuRomPciHeader) : Option (List Nat) :=
  match fu_rom_pci_strstr hdr buildNumberNeedle with
  | some off =>
    match ((cstringAt hdr.rom_data (hdr.data_len + off + 14)).splitOn 32).find?
        containsDot with
    | some t => some t
    | none =>
      match fu_rom_pci_strstr hdr vbiosSpaceNeedle with
      | some off2 => some (cstringAt hdr.rom_data (hdr.data_len + off2 + 6))
      | none => none
  | none =>
    match fu_rom_pci_strstr hdr vbiosSpaceNeedle with
    | some off2 => some (cstringAt hdr.rom_data (hdr.data_len + off2 + 6))
    | none => none

/-- `fu_rom_find_version_ati` (lines 586-600). -/
def fu_rom_find_version_ati (hdr : FuRomPciHeader) : Option (List Nat) :=
  match fu_rom_pci_strstr hdr verZeroNeedle with
  | some off => some (cstringAt hdr.rom_data (hdr.data_len + off + 4))
  | none =>
    match fu_rom_pci_strstr hdr vrNeedle with
    | some off => some (cstringAt hdr.rom_data (hdr.data_len + off + 4))
    | none => none

/-- `fu_rom_find_version` (lines 605-617). -/
def fu_rom_find_version (kind : FuRomKind) (hdr : FuRomPciHeader) :
    Option (List Nat) :=
  match kind with
  | FuRomKind.pci => fu_rom_find_version_pci hdr
  | FuRomKind.nvidia => fu_rom_find_version_nvidia hdr
  | FuRomKind.intel => fu_rom_find_version_intel hdr
  | FuRomKind.ati => fu_rom_find_version_ati hdr
  | FuRomKind.unknown => none

/-- ASCII whitespace as `g_ascii_isspace` sees it. -/
def isAsciiSpace (b : Nat) : Bool :=
  b == 32 || b == 9 || b == 10 || b == 13 || b == 12 || b == 11

/-- Lines 811-812: `g_strstrip` then `g_strdelimit (version, "\r\n ", 0)`:
trim surrounding whitespace, then the string as later consumed ends at the
first CR, LF or space. -/
def postProcess (v : List Nat) : List Nat :=
  (((v.dropWhile isAsciiSpace).reverse.dropWhile isAsciiSpace).reverse).takeWhile
    (fun b => b != 13 && b != 10 && b != 32)

/-- `fu_rom_load_file` (lines 622-837), restricted to the in-scope decode
pipeline: the byte acquisition, file writing, hex dumping and GUID mapping
collaborators are out of scope.  `blank_ppid` models
`flags & FU_ROM_LOAD_FLAG_BLANK_PPID`. -/
def fu_rom_load_file (buffer : List Nat) (blank_ppid : Bool) :
    Except FuRomError FuRomImage :=
  if buffer.length < 1024 then Except.error FuRomError.tooSmall
  else
    match fu_rom_walk buffer (initial_hdr_sz buffer) with
    | [] => Except.error FuRomError.noHeaderFound
    | hdr0 :: rest =>
      if buffer.length < classify_hdr_sz buffer hdr0 then
        Except.error FuRomError.corruptOverflow
      else if fu_rom_classify buffer (classify_hdr_sz buffer hdr0) =
          FuRomKind.unknown then
        Except.error FuRomError.unknownKind
      else
        match (fu_rom_find_version
            (fu_rom_classify buffer (classify_hdr_sz buffer hdr0)) hdr0).map
            postProcess with
        | none => Except.error FuRomError.versionNotFound
        | some v =>
          Except.ok
            { kind := fu_rom_classify buffer (classify_hdr_sz buffer hdr0)
              vendor := hdr0.vendor_id
              model := hdr0.device_id
              version := some v
              hdrs :=
                if blank_ppid then
                  fu_rom_find_and_blank_serial_numbers
                    (fu_rom_classify buffer (classify_hdr_sz buffer hdr0))
                    (hdr0 :: rest)
                else hdr0 :: rest
              fingerprint_stream :=
                ((if blank_ppid then
                    fu_rom_find_and_blank_serial_numbers
                      (fu_rom_classify buffer (classify_hdr_sz buffer hdr0))
                      (hdr0 :: rest)
                  else hdr0 :: rest).map
                  (fun h => h.rom_data.take h.rom_len)).flatten }

/-- The pipeline prefix up to vendor classification: the kind `decode`
would assign, `none` when decode fails before classification. -/
def decodedKind (buffer : List Nat) : Option FuRomKind :=
  if buffer.length < 1024 then none
  else
    match fu_rom_walk buffer (initial_hdr_sz buffer) with
    | [] => none
    | hdr0 :: _ =>
      if buffer.length < classify_hdr_sz buffer hdr0 then none
      else some (fu_rom_classify buffer (classify_hdr_sz buffer hdr0))

/-- True exactly on the `UnknownKind` decode failure. -/
def isUnknownKindError : Except FuRomError FuRomImage → Bool
  | Except.error FuRomError.unknownKind => true
  | _ => false

/-! General list helper lemmas used throughout. -/

/-- Pointwise view of `listExtract`. -/
lemma listExtract_getElem? (l : List Nat) (off n m : Nat) :
    (listExtract l off n)[m]? = if m < n then l[off + m]? else none := by
  unfold listExtract
  by_cases h : m < n
  · rw [if_pos h, List.getElem?_take_of_lt h, List.getElem?_drop]
  · rw [if_neg h]
    apply List.getElem?_eq_none
    have := List.length_take n (l.drop off)
    omega

/-- Length of `listExtract`. -/
lemma listExtract_length (l : List Nat) (off n : Nat) :
    (listExtract l off n).length = min n (l.length - off) := by
  unfold listExtract
  rw [List.length_take, List.length_drop]

/-- A successful non-empty window comparison pins the window inside the
list. -/
lemma listExtract_eq_bound {l nd : List Nat} {off : Nat} (hne : nd ≠ [])
    (h : listExtract l off nd.length = nd) : off + nd.length ≤ l.length := by
  have hlen := congrArg List.length h
  rw [listExtract_length] at hlen
  have : nd.length ≠ 0 := fun h0 => hne (List.eq_nil_of_length_eq_zero h0)
  omega

/-- `getD` through `set` at a different index. -/
lemma getD_set_ne (l : List Nat) (i j x : Nat) (h : i ≠ j) :
    (l.set i x).getD j 0 = l.getD j 0 := by
  rw [List.getD_eq_getElem?_getD, List.getD_eq_getElem?_getD,
    List.getElem?_set_ne h]

/-- `listExtract` ignores `set` at an index at or beyond the window. -/
lemma listExtract_set_of_ge (l : List Nat) (i x off n : Nat)
    (h : off + n ≤ i) : listExtract (l.set i x) off n = listExtract l off n := by
  apply List.ext_getElem?
  intro m
  rw [listExtract_getElem?, listExtract_getElem?]
  by_cases hm : m < n
  · rw [if_pos hm, if_pos hm, List.getElem?_set_ne (by omega)]
  · rw [if_neg hm, if_neg hm]

/-! The byte-search utility: characterization of `fu_rom_pci_strstr`. -/

/-- The scan loop finds exactly the first matching offset inside its fuel
window. -/
lemma strstrScan_eq_some_iff (rd : List Nat) (dl : Nat) (nd : List Nat)
    (fuel : Nat) : ∀ i k : Nat,
    strstrScan rd dl nd fuel i = some k ↔
      (i ≤ k ∧ k < i + fuel ∧ listExtract rd (dl + k) nd.length = nd ∧
        ∀ j, i ≤ j → j < k → listExtract rd (dl + j) nd.length ≠ nd) := by
  induction fuel with
  | zero =>
    intro i k
    simp only [strstrScan]
    constructor
    · intro h; exact absurd h (by simp)
    · intro ⟨h1, h2, _, _⟩; omega
  | succ fuel ih =>
    intro i k
    rw [strstrScan]
    by_cases hm : listExtract rd (dl + i) nd.length = nd
    · rw [if_pos hm]
      constructor
      · intro h
        have hik : i = k := by simpa using h
        subst hik
        exact ⟨Nat.le_refl i, by omega, hm, fun j h1 h2 => by omega⟩
      · intro ⟨h1, _, _, h4⟩
        have hik : i = k := by
          by_contra hne
          exact h4 i (Nat.le_refl i) (by omega) hm
        simp [hik]
    · rw [if_neg hm]
      rw [ih (i + 1) k]
      constructor
      · intro ⟨h1, h2, h3, h4⟩
        refine ⟨by omega, by omega, h3, fun j hj1 hj2 => ?_⟩
        by_cases hji : j = i
        · subst hji; exact hm
        · exact h4 j (by omega) hj2
      · intro ⟨h1, h2, h3, h4⟩
        have hik : i ≠ k := fun he => hm (he ▸ h3)
        exact ⟨by omega, by omega, h3, fun j hj1 hj2 => h4 j (by omega) hj2⟩

/-- Full characterization of the byte search: a result is exactly the first
match whose window ends strictly before `rom_len`. -/
lemma strstr_eq_some_iff (hdr : FuRomPciHeader) (needle : List Nat) (k : Nat) :
    fu_rom_pci_strstr hdr needle = some k ↔
      needle ≠ [] ∧ hdr.data_len ≤ hdr.rom_len ∧
      k + needle.length < hdr.rom_len - hdr.data_len ∧
      matchAt hdr needle k ∧
      ∀ j < k, ¬ matchAt hdr needle j := by
  unfold fu_rom_pci_strstr
  by_cases h0 : needle = []
  · simp [h0]
  · rw [if_neg h0]
    by_cases h1 : hdr.rom_len < hdr.data_len
    · rw [if_pos h1]
      simp only [matchAt]
      constructor
      · intro h; exact absurd h (by simp)
      · intro ⟨_, h2, _, _⟩; omega
    · rw [if_neg h1]
      by_cases h2 : hdr.rom_len - hdr.data_len < needle.length
      · rw [if_pos h2]
        constructor
        · intro h; exact absurd h (by simp)
        · intro ⟨_, _, h3, _⟩; omega
      · rw [if_neg h2]
        rw [strstrScan_eq_some_iff]
        unfold matchAt
        constructor
        · intro ⟨_, hk, h3, h4⟩
          exact ⟨h0, by omega, by omega, h3, fun j hj => h4 j (by omega) hj⟩
        · intro ⟨_, _, hk, h3, h4⟩
          exact ⟨by omega, by omega, h3, fun j _ hj => h4 j hj⟩

/-- A small-header constructor for concrete test inputs: only the byte
buffer and the two lengths matter to the byte search and the redactor. -/
def mkHdr (rom_data : List Nat) (rom_len data_len : Nat) : FuRomPciHeader :=
  { rom_data := rom_data
    rom_len := rom_len
    rom_offset := 0
    entry_point := 0
    reserved := []
    cpi_ptr := 0
    vendor_id := 0
    device_id := 0
    device_list_ptr := 0
    data_len := data_len
    data_rev := 0
    class_code := 0
    image_len := 0
    revision_level := 0
    code_type := 0
    last_image := 0
    max_runtime_len := 0
    config_header_ptr := 0
    dmtf_clp_ptr := 0 }

/-- Header whose trailing region is "XPPID": the needle "PPID" occurs at
offset 1 and ends exactly at `rom_len`. -/
def hdrC3 : FuRomPciHeader := mkHdr [88, 80, 80, 73, 68] 5 0

/-- C3 counterexample: the claim says an occurrence ending exactly at
`rom_len` is returned; in `hdrC3` the needle "PPID" is non-empty,
`data_len ≤ rom_len`, and "PPID" occurs at offset 1 of the trailing
region (ending exactly at `rom_len`), yet the search returns none: the C
loop bound `i < haystack_len - needle_len` never tries that offset. -/
theorem c3_match_at_end_missed :
    ppidNeedle ≠ [] ∧ hdrC3.data_len ≤ hdrC3.rom_len ∧
    matchAt hdrC3 ppidNeedle 1 ∧
    hdrC3.data_len + 1 + ppidNeedle.length ≤ hdrC3.rom_len ∧
    fu_rom_pci_strstr hdrC3 ppidNeedle = none := by decide

/-- C3 (amended): `find(header, needle)` returns the offset of the first
occurrence of the needle in `header.raw[data_len .. rom_len)` whose window
ends strictly before `rom_len`, and none exactly when the needle is empty,
`data_len > rom_len`, or no such occurrence exists; an occurrence ending
exactly at `rom_len` is never found. -/
theorem c3_strstr_characterization (hdr : FuRomPciHeader) (needle : List Nat)
    (k : Nat) :
    fu_rom_pci_strstr hdr needle = some k ↔
      needle ≠ [] ∧ hdr.data_len ≤ hdr.rom_len ∧
      k + needle.length < hdr.rom_len - hdr.data_len ∧
      matchAt hdr needle k ∧
      ∀ j < k, ¬ matchAt hdr needle j :=
  strstr_eq_some_iff hdr needle k

/-- C7: every buffer shorter than 1024 bytes fails with `TooSmall`. -/
theorem c7_too_small (buffer : List Nat) (blank_ppid : Bool)
    (h : buffer.length < 1024) :
    fu_rom_load_file buffer blank_ppid = Except.error FuRomError.tooSmall := by
  unfold fu_rom_load_file
  rw [if_pos h]

/-- C7 witness at a concrete 100-byte buffer. -/
theorem c7_too_small_witness :
    (List.replicate 100 (0 : Nat)).length < 1024 ∧
      fu_rom_load_file (List.replicate 100 0) true =
        Except.error FuRomError.tooSmall :=
  ⟨by decide, c7_too_small (List.replicate 100 0) true (by decide)⟩

/-- Concrete NVGI-signed buffer with bytes 1 and 2 at offsets 0x15 and
0x16. -/
def bufC6 : List Nat := nvgiSig ++ List.replicate 17 0 ++ [1, 2]

/-- C6 counterexample: on an "NVGI" buffer with byte 1 at 0x15 and byte 2
at 0x16, the claimed big-endian 16-bit value of the two bytes is 258, but
the walker's initial header-size offset is 256: the code applies
`GUINT16_FROM_BE` to the single byte at 0x15 and never reads 0x16. -/
theorem c6_byte_0x16_counterexample :
    listExtract bufC6 0 4 = nvgiSig ∧
    bufC6.getD 0x15 0 * 256 + bufC6.getD 0x16 0 = 258 ∧
    initial_hdr_sz bufC6 = 256 ∧
    initial_hdr_sz bufC6 ≠ bufC6.getD 0x15 0 * 256 + bufC6.getD 0x16 0 := by
  decide

/-- C6 (amended): for a buffer beginning with "NVGI" the initial
header-size offset is the byte at 0x15 shifted into the high half of a
16-bit value (byte 0x16 plays no part: changing it never changes the
result); for every other buffer it is 0. -/
theorem c6_nvgi_hdr_sz (buffer : List Nat) (v : Nat) :
    (listExtract buffer 0 4 = nvgiSig →
      initial_hdr_sz buffer = buffer.getD 0x15 0 * 256) ∧
    (listExtract buffer 0 4 ≠ nvgiSig → initial_hdr_sz buffer = 0) ∧
    initial_hdr_sz (buffer.set 0x16 v) = initial_hdr_sz buffer := by
  refine ⟨fun h => ?_, fun h => ?_, ?_⟩
  · rw [initial_hdr_sz, if_pos h]
  · rw [initial_hdr_sz, if_neg h]
  · rw [initial_hdr_sz, initial_hdr_sz,
      listExtract_set_of_ge buffer 0x16 v 0 4 (by omega),
      getD_set_ne buffer 0x16 0x15 v (by omega)]

/-- C6 witness, instantiating the amended claim on `bufC6`. -/
theorem c6_nvgi_hdr_sz_witness :
    listExtract bufC6 0 4 = nvgiSig ∧ initial_hdr_sz bufC6 = bufC6.getD 0x15 0 * 256 :=
  ⟨by decide, (c6_nvgi_hdr_sz bufC6 0).1 (by decide)⟩

/-- The classifier can only produce the four known kinds. -/
lemma classify_ne_unknown (buffer : List Nat) (hdr_sz : Nat) :
    fu_rom_classify buffer hdr_sz ≠ FuRomKind.unknown := by
  unfold fu_rom_classify
  split_ifs <;> simp

/-- C10: decode never fails with `UnknownKind`: once at least one header
was decoded the classifier starts from `PCI`, so the kind is never
`Unknown` when the unknown-kind check runs. -/
theorem c10_never_unknown_kind (buffer : List Nat) (blank_ppid : Bool) :
    isUnknownKindError (fu_rom_load_file buffer blank_ppid) = false := by
  unfold fu_rom_load_file
  split
  · rfl
  · split
    · rfl
    · split
      · rfl
      · split
        · next hcls => exact absurd hcls (classify_ne_unknown _ _)
        · split <;> rfl

/-! The checksum-preserving redaction (C4). -/

/-- Replacing one element changes a list sum by the difference of the
values. -/
lemma sum_set_add (l : List Nat) (i x : Nat) (h : i < l.length) :
    (l.set i x).sum + l.getD i 0 = l.sum + x := by
  induction l generalizing i with
  | nil => simp at h
  | cons b t ih =>
    cases i with
    | zero => simp [List.set, List.getD]; omega
    | succ n =>
      have hn : n < t.length := by simpa using h
      have := ih n hn
      simp only [List.set, List.sum_cons, List.getD_cons_succ]
      omega

/-- Core of the checksum fix: setting the last element to the wrapping
difference makes the sum reduce to zero mod 256. -/
lemma checksum_set_last (l : List Nat) (n : Nat) (hlen : l.length = n)
    (hpos : 1 ≤ n) :
    (l.set (n - 1) ((l.getD (n - 1) 0 + 256 - l.sum % 256) % 256)).sum % 256 = 0 := by
  have hidx : n - 1 < l.length := by omega
  have hset := sum_set_add l (n - 1)
    ((l.getD (n - 1) 0 + 256 - l.sum % 256) % 256) hidx
  omega

/-- After the wrapping subtraction of the recomputed checksum from the last
byte, the byte sum of the segment reduces to zero. -/
lemma fixChecksum_zero (hdr : FuRomPciHeader)
    (hlen : hdr.rom_data.length = hdr.rom_len) (hpos : 1 ≤ hdr.rom_len) :
    fu_rom_pci_header_get_checksum (fixChecksum hdr) = 0 := by
  show (List.take (fixChecksum hdr).rom_len (fixChecksum hdr).rom_data).sum % 256 = 0
  have h1 : (fixChecksum hdr).rom_len = hdr.rom_len := rfl
  have h2 : (fixChecksum hdr).rom_data = hdr.rom_data.set (hdr.rom_len - 1)
      ((hdr.rom_data.getD (hdr.rom_len - 1) 0 + 256
        - fu_rom_pci_header_get_checksum hdr) % 256) := rfl
  have h3 : fu_rom_pci_header_get_checksum hdr = hdr.rom_data.sum % 256 := by
    unfold fu_rom_pci_header_get_checksum
    rw [List.take_of_length_le (by omega)]
  rw [h1, h2, List.take_of_length_le (by rw [List.length_set]; omega), h3]
  exact checksum_set_last hdr.rom_data hdr.rom_len hlen hpos

/-- Blanking never changes the length of the region. -/
lemma blankBytes_length : ∀ (fuel : Nat) (l : List Nat),
    (blankBytes fuel l).length = l.length
  | 0, _ => rfl
  | _ + 1, [] => rfl
  | fuel + 1, b :: rest => by
    rw [blankBytes]
    split
    · rfl
    · simp [blankBytes_length fuel rest]

/-- The blanked buffer keeps the length of `rom_data` as long as the match
starts inside it. -/
lemma blank_region_length (hdr : FuRomPciHeader) (moff : Nat)
    (h : hdr.data_len + moff ≤ hdr.rom_data.length) :
    (blank_region hdr moff).length = hdr.rom_data.length := by
  unfold blank_region
  rw [List.length_append, List.length_take, blankBytes_length, List.length_drop]
  omega

/-- A "PPID" match pins the match window inside `rom_data`. -/
lemma strstr_ppid_bound (hdr : FuRomPciHeader) (moff : Nat)
    (hran : fu_rom_pci_strstr hdr ppidNeedle = some moff) :
    hdr.data_len + moff + 4 ≤ hdr.rom_data.length := by
  have h := (strstr_eq_some_iff hdr ppidNeedle moff).1 hran
  have hb := @listExtract_eq_bound hdr.rom_data ppidNeedle
    (hdr.data_len + moff) (by decide) h.2.2.2.1
  simpa using hb

/-- C4: whenever the redaction step ran on a header (a "PPID" match was
found and blanked) with `rom_len ≥ 1`, the wrapping subtraction of the
recomputed checksum from the last byte makes `header_checksum` zero
again. -/
theorem c4_redaction_checksum_zero (hdr : FuRomPciHeader) (moff : Nat)
    (hlen : hdr.rom_data.length = hdr.rom_len) (hpos : 1 ≤ hdr.rom_len)
    (hran : fu_rom_pci_strstr hdr ppidNeedle = some moff) :
    fu_rom_pci_header_get_checksum (redact_header hdr) = 0 := by
  unfold redact_header
  rw [hran]
  have hbound := strstr_ppid_bound hdr moff hran
  apply fixChecksum_zero
  · show (blank_region hdr moff).length = hdr.rom_len
    rw [blank_region_length hdr moff (by omega)]
    exact hlen
  · exact hpos

/-- Concrete header carrying "PPID12\0" and a checksum byte. -/
def hdrW4 : FuRomPciHeader := mkHdr [80, 80, 73, 68, 49, 50, 0, 5] 8 0

/-- C4 witness: redaction runs on `hdrW4` and the adjusted checksum is 0. -/
theorem c4_redaction_checksum_zero_witness :
    fu_rom_pci_strstr hdrW4 ppidNeedle = some 0 ∧
    hdrW4.rom_data.length = hdrW4.rom_len ∧ 1 ≤ hdrW4.rom_len ∧
    fu_rom_pci_header_get_checksum (redact_header hdrW4) = 0 :=
  ⟨by decide, by decide, by decide,
    c4_redaction_checksum_zero hdrW4 0 (by decide) (by decide) (by decide)⟩

/-! The chain walk: monotone offsets and fuel adequacy (C8). -/

/-- Every attempted offset lies in `[hdr_sz + jump, buffer.length)` and the
attempted offsets are strictly increasing. -/
lemma walkOffsetsFuel_props (buffer : List Nat) (hdr_sz : Nat) :
    ∀ (fuel jump : Nat),
      (∀ o ∈ walkOffsetsFuel buffer hdr_sz fuel jump,
        hdr_sz + jump ≤ o ∧ o < buffer.length) ∧
      (walkOffsetsFuel buffer hdr_sz fuel jump).Pairwise (· < ·) := by
  intro fuel
  induction fuel with
  | zero => intro jump; simp [walkOffsetsFuel]
  | succ fuel ih =>
    intro jump
    rw [walkOffsetsFuel]
    by_cases hle : buffer.length ≤ hdr_sz + jump
    · rw [if_pos hle]; simp
    · rw [if_neg hle]
      have htail : ∀ l, l = (match fu_rom_pci_get_header (buffer.drop (hdr_sz + jump))
            (buffer.length - (hdr_sz + jump)) with
          | none => []
          | some hdr0 =>
            let jump_sz := if hdr0.rom_len = 0 then hdr0.image_len else hdr0.rom_len
            if jump_sz = 0 then []
            else walkOffsetsFuel buffer hdr_sz fuel (jump + jump_sz)) →
          (∀ o ∈ l, hdr_sz + jump + 1 ≤ o ∧ o < buffer.length) := by
        intro l hl
        cases hget : fu_rom_pci_get_header (buffer.drop (hdr_sz + jump))
            (buffer.length - (hdr_sz + jump)) with
        | none => rw [hget] at hl; subst hl; simp
        | some hdr0 =>
          rw [hget] at hl
          simp only at hl
          by_cases hjs : (if hdr0.rom_len = 0 then hdr0.image_len else hdr0.rom_len) = 0
          · rw [if_pos hjs] at hl; subst hl; simp
          · rw [if_neg hjs] at hl
            subst hl
            intro o ho
            have := (ih _).1 o ho
            omega
      constructor
      · intro o ho
        rcases List.mem_cons.1 ho with rfl | hmem
        · exact ⟨Nat.le_refl _, by omega⟩
        · have := htail _ rfl o hmem
          omega
      · rw [List.pairwise_cons]
        constructor
        · intro o ho
          have := htail _ rfl o ho
          omega
        · cases hget : fu_rom_pci_get_header (buffer.drop (hdr_sz + jump))
              (buffer.length - (hdr_sz + jump)) with
          | none => simp
          | some hdr0 =>
            simp only
            by_cases hjs : (if hdr0.rom_len = 0 then hdr0.image_len else hdr0.rom_len) = 0
            · rw [if_pos hjs]; simp
            · rw [if_neg hjs]
              exact (ih _).2

/-- Any two sufficient fuels give the same walk result: the loop reaches
its natural end, never the fuel bound. -/
lemma walkAuxFuel_fuel_indep (buffer : List Nat) (hdr_sz : Nat) :
    ∀ (f1 f2 jump : Nat), buffer.length ≤ hdr_sz + jump + f1 →
      buffer.length ≤ hdr_sz + jump + f2 →
      walkAuxFuel buffer hdr_sz f1 jump = walkAuxFuel buffer hdr_sz f2 jump := by
  intro f1
  induction f1 with
  | zero =>
    intro f2 jump h1 _
    cases f2 with
    | zero => rfl
    | succ g =>
      rw [walkAuxFuel, walkAuxFuel, if_pos (by omega)]
  | succ f1 ih =>
    intro f2 jump h1 h2
    cases f2 with
    | zero =>
      rw [walkAuxFuel, walkAuxFuel, if_pos (by omega)]
    | succ g =>
      rw [walkAuxFuel, walkAuxFuel]
      by_cases hle : buffer.length ≤ hdr_sz + jump
      · rw [if_pos hle, if_pos hle]
      · rw [if_neg hle, if_neg hle]
        cases hget : fu_rom_pci_get_header (buffer.drop (hdr_sz + jump))
            (buffer.length - (hdr_sz + jump)) with
        | none => rfl
        | some hdr0 =>
          simp only
          by_cases hjs : (if hdr0.rom_len = 0 then hdr0.image_len else hdr0.rom_len) = 0
          · rw [if_pos hjs, if_pos hjs]
          · rw [if_neg hjs, if_neg hjs]
            rw [ih g (jump + (if hdr0.rom_len = 0 then hdr0.image_len else hdr0.rom_len))
              (by omega) (by omega)]

/-- C8: the chain walk terminates on its own for every buffer (any
sufficient fuel yields the `fu_rom_walk` result), the attempted decode
offsets are strictly increasing (so none is attempted twice), and every
attempted offset lies strictly inside the buffer. -/
theorem c8_walk_monotone_bounded (buffer : List Nat) (hdr_sz fuel : Nat)
    (hfuel : buffer.length ≤ hdr_sz + fuel) :
    walkAuxFuel buffer hdr_sz fuel 0 = fu_rom_walk buffer hdr_sz ∧
    (fu_rom_walk_offsets buffer hdr_sz).Pairwise (· < ·) ∧
    (fu_rom_walk_offsets buffer hdr_sz).Nodup ∧
    ∀ o ∈ fu_rom_walk_offsets buffer hdr_sz, o < buffer.length := by
  refine ⟨?_, ?_, ?_, ?_⟩
  · exact walkAuxFuel_fuel_indep buffer hdr_sz fuel (buffer.length + 1) 0
      (by omega) (by omega)
  · exact (walkOffsetsFuel_props buffer hdr_sz (buffer.length + 1) 0).2
  · exact List.Pairwise.imp Nat.ne_of_lt
      (walkOffsetsFuel_props buffer hdr_sz (buffer.length + 1) 0).2
  · intro o ho
    exact ((walkOffsetsFuel_props buffer hdr_sz (buffer.length + 1) 0).1 o ho).2

/-- Valid 512-byte first header followed by 512 zero bytes. -/
def bufW8 : List Nat := [0x55, 0xaa, 0x01] ++ List.replicate 1021 0

set_option maxRecDepth 100000 in
/-- C8 witness: on `bufW8` the walk attempts offsets 0 and 512; they are
strictly increasing and inside the buffer. -/
theorem c8_walk_monotone_bounded_witness :
    bufW8.length ≤ 0 + 1024 ∧
    (fu_rom_walk_offsets bufW8 0).Pairwise (· < ·) ∧
    512 ∈ fu_rom_walk_offsets bufW8 0 ∧ 512 < bufW8.length :=
  ⟨by decide, (c8_walk_monotone_bounded bufW8 0 1024 (by decide)).2.1,
    by decide,
    (c8_walk_monotone_bounded bufW8 0 1024 (by decide)).2.2.2 512 (by decide)⟩

/-! The failure branch of the chain walk (C2). -/

/-- The junk scan finds a non-zero byte exactly when one of the `off`
scanned positions (those inside the buffer; the C loop reads unspecified
bytes beyond it) holds a non-zero byte. -/
lemma junkFound_iff (buffer : List Nat) (off : Nat) :
    junkFound buffer off = true ↔ ∃ i < off, buffer.getD (off + i) 0 ≠ 0 := by
  unfold junkFound
  rw [List.any_eq_true]
  constructor
  · rintro ⟨b, hb, hbne⟩
    obtain ⟨m, hmlt, hm⟩ := List.getElem_of_mem hb
    refine ⟨m, ?_, ?_⟩
    · have := listExtract_length buffer off off
      omega
    · have hsome : (listExtract buffer off off)[m]? = some b :=
        hm ▸ List.getElem?_eq_getElem hmlt
      rw [listExtract_getElem?] at hsome
      have hmoff : m < off := by
        have := listExtract_length buffer off off
        omega
      rw [if_pos hmoff] at hsome
      rw [List.getD_eq_getElem?_getD, hsome]
      simpa using hbne
  · rintro ⟨i, hilt, hine⟩
    rw [List.getD_eq_getElem?_getD] at hine
    cases hsome : buffer[off + i]? with
    | none => rw [hsome] at hine; simp at hine
    | some b =>
      rw [hsome] at hine
      simp only [Option.getD_some] at hine
      refine ⟨b, ?_, by simpa using hine⟩
      apply List.get?_mem
      rw [List.get?_eq_getElem?, listExtract_getElem?, if_pos hilt]
      exact hsome

/-- Valid 512-byte first header followed by 512 zero bytes (identical in
content to `bufW8`, kept separate per claim). -/
def bufC2 : List Nat := [0x55, 0xaa, 0x01] ++ List.replicate 1021 0

set_option maxRecDepth 100000 in
/-- C2 counterexample: `bufC2` has a valid 512-byte first header followed
by 512 zero bytes, so decoding fails at offset 512.  The 512 bytes
immediately preceding the failed offset contain the non-zero signature
byte 0x55, so by the claim the walker should append a fallback header;
the code instead scans the bytes at and after the failed offset, finds
only zeros, and appends nothing: the walk yields exactly one header. -/
theorem c2_scan_direction_counterexample :
    (fu_rom_walk bufC2 0).length = 1 ∧
    fu_rom_pci_get_header (bufC2.drop 512) (bufC2.length - 512) = none ∧
    bufC2.getD 0 0 = 0x55 ∧ (0 : Nat) < 512 := by decide

/-- C2 (amended): when decoding fails at offset `hdr_sz + jump`, the
walker scans the `hdr_sz + jump` bytes starting at (not preceding) the
failed offset, bytes past the end of the buffer reading as zero; if all
are zero it stops appending nothing, and otherwise it appends exactly one
fallback header covering the rest of the buffer with zeroed vendor and
device ids, `code_type = 0`, `last_image = 0x80` and
`image_len = rom_len`, then stops. -/
theorem c2_walk_failure_behavior (buffer : List Nat) (hdr_sz jump fuel : Nat)
    (hlt : hdr_sz + jump < buffer.length)
    (hfail : fu_rom_pci_get_header (buffer.drop (hdr_sz + jump))
      (buffer.length - (hdr_sz + jump)) = none) :
    ((∀ i < hdr_sz + jump, buffer.getD (hdr_sz + jump + i) 0 = 0) →
      walkAuxFuel buffer hdr_sz (fuel + 1) jump = []) ∧
    ((∃ i < hdr_sz + jump, buffer.getD (hdr_sz + jump + i) 0 ≠ 0) →
      walkAuxFuel buffer hdr_sz (fuel + 1) jump =
        [fakeHeader buffer (hdr_sz + jump)] ∧
      (fakeHeader buffer (hdr_sz + jump)).vendor_id = 0 ∧
      (fakeHeader buffer (hdr_sz + jump)).device_id = 0 ∧
      (fakeHeader buffer (hdr_sz + jump)).code_type = 0 ∧
      (fakeHeader buffer (hdr_sz + jump)).last_image = 0x80 ∧
      (fakeHeader buffer (hdr_sz + jump)).rom_len =
        buffer.length - (hdr_sz + jump) ∧
      (fakeHeader buffer (hdr_sz + jump)).image_len =
        (fakeHeader buffer (hdr_sz + jump)).rom_len) := by
  rw [walkAuxFuel, if_neg (by omega), hfail]
  constructor
  · intro hzero
    have hjf : junkFound buffer (hdr_sz + jump) = false := by
      rw [← Bool.not_eq_true, junkFound_iff]
      rintro ⟨i, hi, hne⟩
      exact hne (hzero i hi)
    rw [hjf]
    rfl
  · intro hex
    have hjf : junkFound buffer (hdr_sz + jump) = true :=
      (junkFound_iff buffer (hdr_sz + jump)).2 hex
    rw [hjf]
    exact ⟨rfl, rfl, rfl, rfl, rfl, rfl, rfl⟩

/-- Valid 512-byte first header, then two zero signature bytes and a
non-zero junk byte. -/
def bufC2w : List Nat :=
  [0x55, 0xaa, 0x01] ++ List.replicate 509 0 ++ [0, 0, 0x41] ++
    List.replicate 509 0

set_option maxRecDepth 100000 in
/-- C2 witness: on `bufC2w` decoding fails at offset 512, byte 514 is
non-zero, and the walker appends exactly the fallback header. -/
theorem c2_walk_failure_behavior_witness :
    512 < bufC2w.length ∧
    walkAuxFuel bufC2w 0 513 512 = [fakeHeader bufC2w 512] ∧
    (fakeHeader bufC2w 512).last_image = 0x80 :=
  have h := (c2_walk_failure_behavior bufC2w 0 512 512 (by decide)
    (by decide)).2 ⟨2, by decide, by decide⟩
  ⟨by decide, h.1, h.2.2.2.2.1⟩

/-- C9: when classification yields PCI or Intel, decoding with
`blank_ppid = true` gives exactly the same result as with
`blank_ppid = false` — the redaction pass is skipped, so every header's
raw bytes and the fingerprint stream coincide. -/
theorem c9_blank_flag_no_effect_pci_intel (buffer : List Nat)
    (h : decodedKind buffer = some FuRomKind.pci ∨
      decodedKind buffer = some FuRomKind.intel) :
    fu_rom_load_file buffer true = fu_rom_load_file buffer false := by
  by_cases h1 : buffer.length < 1024
  · unfold fu_rom_load_file
    simp only [if_pos h1]
  · unfold decodedKind at h
    unfold fu_rom_load_file
    simp only [if_neg h1] at h ⊢
    cases hw : fu_rom_walk buffer (initial_hdr_sz buffer) with
    | nil => simp only [hw]
    | cons hdr0 rest =>
      simp only [hw] at h ⊢
      by_cases h2 : buffer.length < classify_hdr_sz buffer hdr0
      · simp only [if_pos h2] at h ⊢
      · simp only [if_neg h2] at h ⊢
        have hk : fu_rom_classify buffer (classify_hdr_sz buffer hdr0) =
            FuRomKind.pci ∨
            fu_rom_classify buffer (classify_hdr_sz buffer hdr0) =
            FuRomKind.intel := by
          rcases h with h | h
          · exact Or.inl (Option.some.inj h)
          · exact Or.inr (Option.some.inj h)
        have hnu : ¬ (fu_rom_classify buffer (classify_hdr_sz buffer hdr0) =
            FuRomKind.unknown) := by
          rcases hk with hk | hk <;> rw [hk] <;> simp
        have hblank : fu_rom_find_and_blank_serial_numbers
            (fu_rom_classify buffer (classify_hdr_sz buffer hdr0))
            (hdr0 :: rest) = hdr0 :: rest := by
          rw [fu_rom_find_and_blank_serial_numbers, if_pos hk]
        simp only [if_neg hnu, hblank, ite_self]

/-- Whole-buffer-sized first header, no vendor signature: kind PCI. -/
def bufW9 : List Nat := [0x55, 0xaa, 0x02] ++ List.replicate 1021 0

set_option maxRecDepth 100000 in
/-- C9 witness: `bufW9` classifies as PCI and the two decode runs agree. -/
theorem c9_blank_flag_no_effect_pci_intel_witness :
    decodedKind bufW9 = some FuRomKind.pci ∧
    fu_rom_load_file bufW9 true = fu_rom_load_file bufW9 false :=
  ⟨by decide, c9_blank_flag_no_effect_pci_intel bufW9 (Or.inl (by decide))⟩

/-! Out-of-bounds reachability (C1). -/

/-- 1024-byte buffer: one whole-buffer header, Nvidia "K74" signature at
offset 4, "PPID" at offset 32, and no boundary byte (0xFF, NUL, CR, LF)
anywhere after offset 32. -/
def bufC1 : List Nat :=
  [0x55, 0xaa, 0x02, 0x41, 75, 55, 52] ++ List.replicate 25 0x41 ++
    [80, 80, 73, 68] ++ List.replicate 988 0x41

/-- The single header the walk produces for `bufC1`. -/
def firstHdrC1 : FuRomPciHeader := (fu_rom_walk bufC1 0).headD default

/-- 700-byte buffer: a valid 512-byte first header and only zero bytes
afterwards, so the junk scan window `[512, 1024)` extends 324 bytes past
the end of the buffer. -/
def bufC1b : List Nat := [0x55, 0xaa, 0x01] ++ List.replicate 697 0

set_option maxRecDepth 100000 in
/-- C1 is violated by the code: on `bufC1` decode classifies the image as
Nvidia, so with `blank_ppid` set the redaction pass runs; the "PPID" match
is at trailing offset 32 ≥ 1 and no boundary byte follows inside the
segment, so the C blanking loop (bounded by `rom_len - data_len` counted
from the match) reads and writes `rom_data[rom_len]` and beyond
(`redact_in_bounds = false`).  On `bufC1b` decoding fails at offset 512
and the junk scan's window `[512, 1024)` extends past the 700-byte buffer
with every in-bounds byte zero, so the C scan loop reads `buffer[700]`
and beyond (`junk_scan_in_bounds = false`). -/
theorem c1_decode_reaches_out_of_bounds :
    decodedKind bufC1 = some FuRomKind.nvidia ∧
    fu_rom_pci_strstr firstHdrC1 ppidNeedle = some 32 ∧
    firstHdrC1.rom_data.length = firstHdrC1.rom_len ∧
    redact_in_bounds firstHdrC1 = false ∧
    (fu_rom_walk bufC1b 0).length = 1 ∧
    fu_rom_pci_get_header (bufC1b.drop 512) (bufC1b.length - 512) = none ∧
    512 < bufC1b.length ∧
    junk_scan_in_bounds bufC1b 512 = false := by decide

/-! Idempotence of the redaction pass (C5). -/

/-- Header whose trailing region carries two "PPID" runs separated by a
LF boundary byte. -/
def hdrC5 : FuRomPciHeader :=
  mkHdr [80, 80, 73, 68, 65, 10, 80, 80, 73, 68, 66, 10, 7] 13 0

/-- C5 counterexample: on `hdrC5` the redaction ran (match at offset 0),
but blanking destroys only the first "PPID" run; a second run finds the
second occurrence, clears a different region and adjusts the checksum byte
again, so running the pass twice does not reproduce the first run's
bytes. -/
theorem c5_second_ppid_not_idempotent :
    fu_rom_pci_strstr hdrC5 ppidNeedle = some 0 ∧
    redact_header (redact_header hdrC5) ≠ redact_header hdrC5 := by decide

/-- Blanking the empty region gives the empty region. -/
lemma blankBytes_nil : ∀ fuel : Nat, blankBytes fuel [] = []
  | 0 => rfl
  | _ + 1 => rfl

/-- Every byte of a blanked region is the original byte or zero. -/
lemma blankBytes_getD : ∀ (fuel : Nat) (l : List Nat) (p : Nat),
    (blankBytes fuel l).getD p 0 = l.getD p 0 ∨ (blankBytes fuel l).getD p 0 = 0
  | 0, _, _ => Or.inl rfl
  | _ + 1, [], _ => Or.inl rfl
  | fuel + 1, b :: rest, p => by
    rw [blankBytes]
    by_cases hb : boundaryByte b
    · rw [if_pos hb]
      exact Or.inl rfl
    · rw [if_neg hb]
      cases p with
      | zero => exact Or.inr rfl
      | succ q =>
        have h := blankBytes_getD fuel rest q
        simpa [List.getD_cons_succ] using h

/-- With fuel left and a non-boundary first byte, blanking zeroes it. -/
lemma blankBytes_getD_zero (fuel : Nat) (b : Nat) (rest : List Nat)
    (hf : fuel ≠ 0) (hb : boundaryByte b = false) :
    (blankBytes fuel (b :: rest)).getD 0 0 = 0 := by
  cases fuel with
  | zero => exact absurd rfl hf
  | succ f =>
    rw [blankBytes, if_neg (by simp [hb])]
    rfl

/-- Pointwise view of the blanked buffer: every byte is the original byte
or zero. -/
lemma blank_region_getD (hdr : FuRomPciHeader) (moff p : Nat) :
    (blank_region hdr moff).getD p 0 = hdr.rom_data.getD p 0 ∨
    (blank_region hdr moff).getD p 0 = 0 := by
  unfold blank_region
  by_cases hst : hdr.data_len + moff ≤ hdr.rom_data.length
  · by_cases hp : p < hdr.data_len + moff
    · left
      rw [List.getD_eq_getElem?_getD, List.getD_eq_getElem?_getD,
        List.getElem?_append]
      rw [if_pos (by rw [List.length_take]; omega)]
      rw [List.getElem?_take_of_lt hp]
    · have hlt : (hdr.rom_data.take (hdr.data_len + moff)).length =
          hdr.data_len + moff := by
        rw [List.length_take]; omega
      have happ : (hdr.rom_data.take (hdr.data_len + moff) ++
          blankBytes (hdr.rom_len - hdr.data_len)
            (hdr.rom_data.drop (hdr.data_len + moff))).getD p 0 =
          (blankBytes (hdr.rom_len - hdr.data_len)
            (hdr.rom_data.drop (hdr.data_len + moff))).getD
            (p - (hdr.data_len + moff)) 0 := by
        rw [List.getD_eq_getElem?_getD, List.getD_eq_getElem?_getD,
          List.getElem?_append, hlt, if_neg (by omega)]
      rw [happ]
      rcases blankBytes_getD (hdr.rom_len - hdr.data_len)
          (hdr.rom_data.drop (hdr.data_len + moff))
          (p - (hdr.data_len + moff)) with h | h
      · left
        have hidx : hdr.data_len + moff + (p - (hdr.data_len + moff)) = p := by
          omega
        rw [h, List.getD_eq_getElem?_getD, List.getD_eq_getElem?_getD,
          List.getElem?_drop, hidx]
      · right
        exact h
  · rw [List.take_of_length_le (by omega), List.drop_eq_nil_of_le (by omega),
      blankBytes_nil, List.append_nil]
    exact Or.inl rfl

/-- The byte at the match position itself is zeroed by the blanking pass
whenever the match starts inside the buffer with a non-boundary byte. -/
lemma blank_region_getD_start (hdr : FuRomPciHeader) (moff : Nat)
    (hst : hdr.data_len + moff < hdr.rom_data.length)
    (hf : hdr.rom_len - hdr.data_len ≠ 0)
    (hb : boundaryByte (hdr.rom_data.getD (hdr.data_len + moff) 0) = false) :
    (blank_region hdr moff).getD (hdr.data_len + moff) 0 = 0 := by
  unfold blank_region
  have hlt : (hdr.rom_data.take (hdr.data_len + moff)).length =
      hdr.data_len + moff := by
    rw [List.length_take]; omega
  have happ : (hdr.rom_data.take (hdr.data_len + moff) ++
      blankBytes (hdr.rom_len - hdr.data_len)
        (hdr.rom_data.drop (hdr.data_len + moff))).getD
        (hdr.data_len + moff) 0 =
      (blankBytes (hdr.rom_len - hdr.data_len)
        (hdr.rom_data.drop (hdr.data_len + moff))).getD 0 0 := by
    rw [List.getD_eq_getElem?_getD, List.getD_eq_getElem?_getD,
      List.getElem?_append, hlt, if_neg (by omega)]
    simp
  rw [happ]
  obtain ⟨b, rest, hdrop⟩ : ∃ b rest,
      hdr.rom_data.drop (hdr.data_len + moff) = b :: rest := by
    cases hd : hdr.rom_data.drop (hdr.data_len + moff) with
    | nil =>
      have := List.length_drop (hdr.data_len + moff) hdr.rom_data
      rw [hd] at this
      simp at this
      omega
    | cons b rest => exact ⟨b, rest, rfl⟩
  have hbb : b = hdr.rom_data.getD (hdr.data_len + moff) 0 := by
    have h0 : (hdr.rom_data.drop (hdr.data_len + moff)).getD 0 0 = b := by
      rw [hdrop]; rfl
    rw [List.getD_eq_getElem?_getD, List.getElem?_drop] at h0
    rw [List.getD_eq_getElem?_getD]
    simpa using h0.symm
  rw [hdrop]
  exact blankBytes_getD_zero _ b rest hf (hbb ▸ hb)

/-- Pointwise characterization of a successful window comparison. -/
lemma listExtract_eq_iff (rd nd : List Nat) (off : Nat) (hnd : nd ≠ []) :
    listExtract rd off nd.length = nd ↔
      off + nd.length ≤ rd.length ∧
      ∀ j < nd.length, rd.getD (off + j) 0 = nd.getD j 0 := by
  constructor
  · intro h
    have hb := listExtract_eq_bound hnd h
    refine ⟨hb, fun j hj => ?_⟩
    have hpt := congrArg (fun l => l[j]?) h
    simp only [listExtract_getElem?, if_pos hj] at hpt
    rw [List.getD_eq_getElem?_getD, List.getD_eq_getElem?_getD, hpt]
  · intro ⟨hb, hpt⟩
    apply List.ext_getElem?
    intro m
    rw [listExtract_getElem?]
    by_cases hm : m < nd.length
    · rw [if_pos hm]
      have h1 := hpt m hm
      rw [List.getD_eq_getElem?_getD, List.getD_eq_getElem?_getD] at h1
      have h2 : rd[off + m]? = some rd[off + m] :=
        List.getElem?_eq_getElem (by omega)
      have h3 : nd[m]? = some nd[m] := List.getElem?_eq_getElem hm
      rw [h2, h3] at h1 ⊢
      simpa using h1
    · rw [if_neg hm]
      exact (List.getElem?_eq_none (by omega)).symm

/-- A header on which the search found nothing is left unchanged by the
redactor. -/
lemma redact_of_none (hdr : FuRomPciHeader)
    (h : fu_rom_pci_strstr hdr ppidNeedle = none) : redact_header hdr = hdr := by
  unfold redact_header
  rw [h]

/-- The redactor never changes `data_len` or `rom_len`. -/
lemma redact_fields (hdr : FuRomPciHeader) :
    (redact_header hdr).data_len = hdr.data_len ∧
    (redact_header hdr).rom_len = hdr.rom_len := by
  unfold redact_header
  cases h : fu_rom_pci_strstr hdr ppidNeedle with
  | none => exact ⟨rfl, rfl⟩
  | some moff => exact ⟨rfl, rfl⟩

/-- C5 (amended): the redaction pass is idempotent on every header whose
data carries at most one "PPID" match: after the first run's blanking no
further match remains (blanking zeroes the matched "PPID" itself, zero
bytes cannot form it again, and the adjusted checksum byte sits past every
findable match window), so a second run changes nothing.  With two
occurrences the pass is not idempotent (see the counterexample). -/
theorem c5_redaction_idempotent_unique_match (hdr : FuRomPciHeader)
    (hlen : hdr.rom_data.length = hdr.rom_len)
    (hinb : redact_in_bounds hdr = true)
    (huniq : ∀ i < hdr.rom_len, ∀ j < hdr.rom_len,
      matchAt hdr ppidNeedle i → matchAt hdr ppidNeedle j → i = j) :
    redact_header (redact_header hdr) = redact_header hdr := by
  cases hm : fu_rom_pci_strstr hdr ppidNeedle with
  | none =>
    rw [redact_of_none hdr hm, redact_of_none hdr hm]
  | some moff =>
    have hred : redact_header hdr =
        fixChecksum { hdr with rom_data := blank_region hdr moff } := by
      unfold redact_header
      rw [hm]
    have hp4 : ppidNeedle.length = 4 := rfl
    obtain ⟨-, hdl, hklen, hmatch, -⟩ := (strstr_eq_some_iff hdr ppidNeedle moff).1 hm
    rw [hp4] at hklen
    have hm1 := (listExtract_eq_iff hdr.rom_data ppidNeedle
      (hdr.data_len + moff) (by decide)).1 hmatch
    rw [hp4] at hm1
    obtain ⟨hm1b, hm1p⟩ := hm1
    have hfields := redact_fields hdr
    have hRdata : (redact_header hdr).rom_data =
        (blank_region hdr moff).set (hdr.rom_len - 1)
          (((blank_region hdr moff).getD (hdr.rom_len - 1) 0 + 256
            - fu_rom_pci_header_get_checksum
              { hdr with rom_data := blank_region hdr moff }) % 256) := by
      rw [hred]
      rfl
    have hnone : fu_rom_pci_strstr (redact_header hdr) ppidNeedle = none := by
      cases hm2 : fu_rom_pci_strstr (redact_header hdr) ppidNeedle with
      | none => rfl
      | some k =>
        exfalso
        obtain ⟨-, hdl2, hklen2, hmatch2, -⟩ :=
          (strstr_eq_some_iff (redact_header hdr) ppidNeedle k).1 hm2
        rw [hp4, hfields.1, hfields.2] at hklen2
        have hm2' := (listExtract_eq_iff (redact_header hdr).rom_data ppidNeedle
          ((redact_header hdr).data_len + k) (by decide)).1 hmatch2
        rw [hp4, hfields.1] at hm2'
        obtain ⟨hm2b, hm2p⟩ := hm2'
        have hnz : ∀ j < 4, ppidNeedle.getD j 0 ≠ 0 := by decide
        have hold : ∀ j < 4, hdr.rom_data.getD (hdr.data_len + k + j) 0 =
            ppidNeedle.getD j 0 := by
          intro j hj
          have hRj := hm2p j (by omega)
          have hne : hdr.data_len + k + j ≠ hdr.rom_len - 1 := by omega
          rw [hRdata, getD_set_ne _ _ _ _ (fun he => hne he.symm)] at hRj
          rcases blank_region_getD hdr moff (hdr.data_len + k + j) with hbr | hbr
          · rw [← hbr, hRj]
          · rw [hbr] at hRj
            exact absurd hRj.symm (hnz j hj)
        have hmk : matchAt hdr ppidNeedle k := by
          show listExtract hdr.rom_data (hdr.data_len + k) ppidNeedle.length =
            ppidNeedle
          rw [listExtract_eq_iff hdr.rom_data ppidNeedle (hdr.data_len + k)
            (by decide), hp4]
          exact ⟨by omega, fun j hj => hold j hj⟩
        have hkm : k = moff := huniq k (by omega) moff (by omega) hmk hmatch
        have hstart0 : (blank_region hdr moff).getD (hdr.data_len + moff) 0 = 0 := by
          apply blank_region_getD_start hdr moff (by omega) (by omega)
          have h80 : hdr.rom_data.getD (hdr.data_len + moff) 0 = 80 := by
            have := hm1p 0 (by omega)
            simpa using this
          rw [h80]
          decide
        have hR0 := hm2p 0 (by omega)
        rw [hkm] at hR0
        rw [hRdata] at hR0
        rw [getD_set_ne _ _ _ _ (fun he => absurd he (by omega))] at hR0
        exact absurd (hstart0.symm.trans hR0) (by decide)
    rw [redact_of_none _ hnone]

/-- Header with a single "PPID" run and no second occurrence. -/
def hdrW5 : FuRomPciHeader := mkHdr [80, 80, 73, 68, 65, 65, 65, 7] 8 0

/-- C5 witness: on `hdrW5` the redaction ran in bounds, the match is
unique, and a second run reproduces the first run's header exactly. -/
theorem c5_redaction_idempotent_unique_match_witness :
    hdrW5.rom_data.length = hdrW5.rom_len ∧
    redact_in_bounds hdrW5 = true ∧
    fu_rom_pci_strstr hdrW5 ppidNeedle = some 0 ∧
    redact_header (redact_header hdrW5) = redact_header hdrW5 :=
  ⟨by decide, by decide, by decide,
    c5_redaction_idempotent_unique_match hdrW5 (by decide) (by decide)
      (by decide)⟩
